import Mathlib

/-!
Shallow embedding of the Frame Streams codec and session engine of the
`fstrm` crate (files `src/lib.rs`, `src/control.rs`, `src/reader.rs`,
`src/writer.rs`).

A byte stream is a `List Nat` of bytes; every reading operation is written
in explicit state-passing style, returning the result (an `Except` over the
crate's error enumeration) together with the remaining stream.  The remaining
stream is returned even on error, mirroring the fact that in the Rust code a
failed decode leaves the reader at whatever position the reads advanced to.
-/

set_option maxRecDepth 100000

namespace Fstrm

/-- A byte; values are reduced mod 256 when a 32-bit integer is assembled. -/
abbrev Byte := Nat

/-- A byte stream. -/
abbrev Bytes := List Nat

/-- The crate's `Error` enumeration (`src/lib.rs`).  `otherError` stands for
the `OtherError` variant that wraps lower-level I/O failures, in particular
truncation (`read_exact` hitting EOF). -/
inductive Error where
  | frameFormatError
  | controlFrameError
  | contentTypeError
  | todoError
  | otherError
  deriving DecidableEq, Repr

/-- `FSTRM_LENGTH_SIZE` in `src/lib.rs`: a 32-bit length occupies 4 bytes. -/
def FSTRM_LENGTH_SIZE : Nat := 4

/-- `size_of::<u32>()`, the value of `discriminant_size()` for both
`Control` and `Field` in `src/control.rs`. -/
def discriminantSize : Nat := 4

def FSTRM_CONTROL_ACCEPT : Nat := 0x01
def FSTRM_CONTROL_START : Nat := 0x02
def FSTRM_CONTROL_STOP : Nat := 0x03
def FSTRM_CONTROL_READY : Nat := 0x04
def FSTRM_CONTROL_FINISH : Nat := 0x05

def FSTRM_CONTROL_FIELD_CONTENT_TYPE : Nat := 0x01

/-- `FRAME_LENGTH_MAX` in `src/control.rs`. -/
def FRAME_LENGTH_MAX : Nat := 512

/-- `FIELD_CONTENT_TYPE_LENGTH_MAX` in `src/control.rs`. -/
def FIELD_CONTENT_TYPE_LENGTH_MAX : Nat := 256

/-- `Read::read_frame_value` (`src/reader.rs`): read a big-endian `u32`
from the next four bytes.  Too few bytes is an I/O error, which the crate
wraps into `Error::OtherError`. -/
def readFrameValue (s : Bytes) : Except Error Nat × Bytes :=
  match s with
  | b0 :: b1 :: b2 :: b3 :: rest =>
      (.ok (b0 % 256 * 16777216 + b1 % 256 * 65536 + b2 % 256 * 256 + b3 % 256), rest)
  | _ => (.error .otherError, [])

/-- `Read::read_frame_data_for_len` (`src/reader.rs`): read exactly `len`
bytes; EOF mid-read is an I/O error wrapped into `OtherError`. -/
def readFrameDataForLen (len : Nat) (s : Bytes) : Except Error Bytes × Bytes :=
  if len ≤ s.length then (.ok (s.take len), s.drop len)
  else (.error .otherError, [])

/-- `Read::consume` (`src/reader.rs`): discard `len` bytes. -/
def consume (len : Nat) (s : Bytes) : Bytes := s.drop len

/-- `Write::write_frame_value` (`src/writer.rs`): the four big-endian bytes
of a 32-bit value. -/
def writeFrameValue (v : Nat) : Bytes :=
  [v / 16777216 % 256, v / 65536 % 256, v / 256 % 256, v % 256]

/-- `Field` in `src/control.rs`: the only defined field is `CONTENT_TYPE`,
carrying an opaque byte string. -/
inductive Field where
  | contentType (val : Bytes)
  deriving DecidableEq, Repr

/-- `Field::body_size`. -/
def Field.bodySize : Field → Nat
  | .contentType ct => ct.length

/-- `Field::ref_body`. -/
def Field.refBody : Field → Bytes
  | .contentType ct => ct

/-- The `#[repr(u32)]` discriminant of a `Field`. -/
def Field.discriminant : Field → Nat
  | .contentType _ => FSTRM_CONTROL_FIELD_CONTENT_TYPE

/-- `Field::size`: discriminant + length word + body. -/
def Field.size (f : Field) : Nat :=
  discriminantSize + FSTRM_LENGTH_SIZE + f.bodySize

/-- `Field::decode` (`src/control.rs`): read the tag; only
`CONTENT_TYPE` is understood, any other tag is a `FrameFormatError`.  The
declared field-body length is capped at `FIELD_CONTENT_TYPE_LENGTH_MAX`. -/
def Field.decode (s : Bytes) : Except Error Field × Bytes :=
  match readFrameValue s with
  | (.error e, s) => (.error e, s)
  | (.ok tag, s) =>
    if tag = FSTRM_CONTROL_FIELD_CONTENT_TYPE then
      match readFrameValue s with
      | (.error e, s) => (.error e, s)
      | (.ok len, s) =>
        if len > FIELD_CONTENT_TYPE_LENGTH_MAX then
          (.error .frameFormatError, s)
        else
          match readFrameDataForLen len s with
          | (.error e, s) => (.error e, s)
          | (.ok body, s) => (.ok (.contentType body), s)
    else
      (.error .frameFormatError, s)

/-- `Field::encode` (`src/control.rs`). -/
def Field.encode (f : Field) : Bytes :=
  writeFrameValue f.discriminant ++ writeFrameValue f.bodySize ++ f.refBody

/-- `Data` in `src/control.rs`: the payload of a control frame, stored as
no field, one field, or a vector of fields. -/
inductive Data where
  | empty
  | field (f : Field)
  | fields (fs : List Field)
  deriving DecidableEq, Repr

/-- `Data::size`. -/
def Data.size : Data → Nat
  | .empty => 0
  | .field f => f.size
  | .fields fs => (fs.map Field.size).sum

/-- `Data::encode`: fields are written front to back. -/
def Data.encode : Data → Bytes
  | .empty => []
  | .field f => f.encode
  | .fields fs => (fs.map Field.encode).flatten

/-- `impl From<Data> for Vec<Field>` in `src/control.rs`. -/
def fieldsOfData : Data → List Field
  | .empty => []
  | .field f => [f]
  | .fields fs => fs

/-- `impl From<Vec<Field>> for Data` in `src/control.rs`: zero fields give
`Empty`, one gives `Field`, more give `Fields`. -/
def dataOfFields : List Field → Data
  | [] => .empty
  | [f] => .field f
  | fs => .fields fs

/-- `Data::filter` (`src/control.rs`): keep the fields satisfying the
predicate, re-packing through the `Vec<Field>` conversion; a single field
failing the predicate falls through to `Empty`. -/
def Data.filter (d : Data) (p : Field → Bool) : Data :=
  match d with
  | .field f => if p f then .field f else .empty
  | .fields fs => dataOfFields (fs.filter p)
  | .empty => .empty

/-- `Control` in `src/control.rs`. -/
inductive Control where
  | accept (d : Data)
  | start (d : Data)
  | stop
  | ready (d : Data)
  | finish
  deriving DecidableEq, Repr

/-- The `#[repr(u32)]` discriminant of a `Control`. -/
def Control.discriminant : Control → Nat
  | .accept _ => FSTRM_CONTROL_ACCEPT
  | .start _ => FSTRM_CONTROL_START
  | .stop => FSTRM_CONTROL_STOP
  | .ready _ => FSTRM_CONTROL_READY
  | .finish => FSTRM_CONTROL_FINISH

/-- The `Data` carried by a control frame (`Empty` for `STOP`/`FINISH`). -/
def Control.data : Control → Data
  | .accept d | .start d | .ready d => d
  | .stop | .finish => .empty

/-- `Control::body_size`: discriminant plus the fields. -/
def Control.bodySize (c : Control) : Nat :=
  discriminantSize +
    match c with
    | .accept d | .start d | .ready d => d.size
    | _ => 0

/-- `Control::size`: length word plus body. -/
def Control.size (c : Control) : Nat :=
  FSTRM_LENGTH_SIZE + c.bodySize

/-- `Control::encode` (`src/control.rs`): body length, then discriminant,
then the fields for `ACCEPT`/`START`/`READY`. -/
def Control.encode (c : Control) : Bytes :=
  writeFrameValue c.bodySize ++ writeFrameValue c.discriminant ++
    match c with
    | .accept d | .start d | .ready d => d.encode
    | _ => []

/-- One step of the `while len > 0` field loop in the `ACCEPT | READY` arm
of `Control::decode` (`src/control.rs`), with an explicit iteration budget
so that the function is structurally recursive and evaluates in the kernel.
A successful field always has size at least 8, so `len` strictly decreases
on every iteration and a budget of `len + 1` can never run out; the
theorem `decodeFields_eq` below certifies the budget-free loop shape. -/
def decodeFieldsAux (fuel : Nat) (len : Nat) (s : Bytes) (acc : List Field) :
    Except Error (List Field) × Bytes :=
  match fuel with
  | 0 => (.error .otherError, s)
  | fuel + 1 =>
    if len = 0 then (.ok acc, s)
    else if len < discriminantSize then (.error .frameFormatError, consume len s)
    else
      match Field.decode s with
      | (.error e, s) => (.error e, s)
      | (.ok f, s) =>
        if f.size > len then (.error .todoError, s)
        else decodeFieldsAux fuel (len - f.size) s (acc ++ [f])

/-- The `while len > 0` field loop in the `ACCEPT | READY` arm of
`Control::decode` (`src/control.rs`): decode one field at a time while
declared body bytes remain. -/
def decodeFields (len : Nat) (s : Bytes) (acc : List Field) :
    Except Error (List Field) × Bytes :=
  decodeFieldsAux (len + 1) len s acc

/-- `Control::decode` (`src/control.rs`). -/
def Control.decode (s : Bytes) : Except Error Control × Bytes :=
  match readFrameValue s with
  | (.error e, s) => (.error e, s)
  | (.ok len, s) =>
    if len > FRAME_LENGTH_MAX ∨ len < discriminantSize then
      (.error .frameFormatError, consume len s)
    else
      match readFrameValue s with
      | (.error e, s) => (.error e, s)
      | (.ok d, s) =>
        let len := len - discriminantSize
        if d = FSTRM_CONTROL_FINISH ∧ len = 0 then (.ok .finish, s)
        else if d = FSTRM_CONTROL_STOP ∧ len = 0 then (.ok .stop, s)
        else if d = FSTRM_CONTROL_START then
          if len = 0 then (.ok (.start .empty), s)
          else if len < discriminantSize then
            (.error .frameFormatError, consume len s)
          else
            match Field.decode s with
            | (.error e, s) => (.error e, s)
            | (.ok f, s) =>
              let l := f.size
              let s := if l < len then consume (len - l) s else s
              if l ≤ len then (.ok (.start (.field f)), s)
              else (.error .todoError, s)
        else if d = FSTRM_CONTROL_ACCEPT ∨ d = FSTRM_CONTROL_READY then
          match decodeFields len s [] with
          | (.error e, s) => (.error e, s)
          | (.ok fs, s) =>
            (.ok (if d = FSTRM_CONTROL_ACCEPT then .accept (dataOfFields fs)
                  else .ready (dataOfFields fs)), s)
        else
          (.error .frameFormatError, if len > 0 then consume len s else s)

/-- `Frame` in `src/lib.rs`. -/
inductive Frame where
  | control (c : Control)
  | data (payload : Bytes)
  deriving DecidableEq, Repr

/-- `Frame::encode` (`src/lib.rs`): a data frame writes its payload length
as the header then the payload; a control frame writes the zero escape
header then the control frame.  With an in-memory sink every write
succeeds, so the `Result` is always `Ok`. -/
def Frame.encode : Frame → Except Error Bytes
  | .data payload => .ok (writeFrameValue payload.length ++ payload)
  | .control c => .ok (writeFrameValue 0 ++ Control.encode c)

/-- `Read::read_frame` (`src/reader.rs`): a non-zero header is a data
frame's payload length; a zero header escapes into `Control::decode`. -/
def readFrame (s : Bytes) : Except Error Frame × Bytes :=
  match readFrameValue s with
  | (.error e, s) => (.error e, s)
  | (.ok v, s) =>
    if v ≠ 0 then
      match readFrameDataForLen v s with
      | (.error e, s) => (.error e, s)
      | (.ok payload, s) => (.ok (.data payload), s)
    else
      match Control.decode s with
      | (.error e, s) => (.error e, s)
      | (.ok c, s) => (.ok (.control c), s)

/-- A field satisfying the per-field cap stated in the spec: the
`CONTENT_TYPE` body is at most 256 bytes. -/
def Field.valid (f : Field) : Prop :=
  f.bodySize ≤ FIELD_CONTENT_TYPE_LENGTH_MAX

/-- A `Data` value in the image of the crate's `Vec<Field> -> Data`
conversion (the shape every decoded value and every value built through the
public conversions has): no `Fields` vector of length 0 or 1. -/
def Data.canonical (d : Data) : Prop :=
  dataOfFields (fieldsOfData d) = d

/-- A control frame satisfying the spec's stated invariants: encoded body
within the 512-byte cap, every `CONTENT_TYPE` body within the 256-byte cap,
`START` carrying at most one field, and the field container canonical. -/
def Control.valid : Control → Prop
  | .accept d =>
      discriminantSize + d.size ≤ FRAME_LENGTH_MAX ∧ d.canonical ∧
        ∀ f ∈ fieldsOfData d, f.valid
  | .ready d =>
      discriminantSize + d.size ≤ FRAME_LENGTH_MAX ∧ d.canonical ∧
        ∀ f ∈ fieldsOfData d, f.valid
  | .start d =>
      discriminantSize + d.size ≤ FRAME_LENGTH_MAX ∧
        (d = .empty ∨ ∃ f, d = .field f ∧ f.valid)
  | .stop => True
  | .finish => True

/-- A frame the spec calls well formed: a data frame with a non-empty
payload that fits in a `u32`, or a valid control frame. -/
def Frame.valid : Frame → Prop
  | .data p => 0 < p.length ∧ p.length < 4294967296
  | .control c => c.valid

instance instDecEqExcept {ε α : Type} [DecidableEq ε] [DecidableEq α] :
    DecidableEq (Except ε α)
  | .ok a, .ok b =>
      if h : a = b then isTrue (by rw [h])
      else isFalse (by intro hc; cases hc; exact h rfl)
  | .ok _, .error _ => isFalse (by intro hc; exact Except.noConfusion hc)
  | .error _, .ok _ => isFalse (by intro hc; exact Except.noConfusion hc)
  | .error e, .error e2 =>
      if h : e = e2 then isTrue (by rw [h])
      else isFalse (by intro hc; cases hc; exact h rfl)

instance instDecidableFieldValid (f : Field) : Decidable f.valid :=
  inferInstanceAs (Decidable (_ ≤ _))

instance instDecidableDataCanonical (d : Data) : Decidable d.canonical :=
  inferInstanceAs (Decidable (_ = _))

/-- Decidability of the at-most-one-field condition used for `START`. -/
def decStartData : (d : Data) → Decidable (d = .empty ∨ ∃ f, d = .field f ∧ f.valid)
  | .empty => isTrue (Or.inl rfl)
  | .field f =>
      if h : f.valid then isTrue (Or.inr ⟨f, rfl, h⟩)
      else isFalse (by
        rintro (hc | ⟨g, hg, hgv⟩)
        · exact Data.noConfusion hc
        · cases hg; exact h hgv)
  | .fields fs => isFalse (by
      rintro (hc | ⟨g, hg, _⟩)
      · exact Data.noConfusion hc
      · exact Data.noConfusion hg)

instance instDecidableControlValid : (c : Control) → Decidable c.valid
  | .accept _ => inferInstanceAs (Decidable (_ ∧ _ ∧ _))
  | .ready _ => inferInstanceAs (Decidable (_ ∧ _ ∧ _))
  | .start d => @instDecidableAnd _ _ (Nat.decLe _ _) (decStartData d)
  | .stop => inferInstanceAs (Decidable True)
  | .finish => inferInstanceAs (Decidable True)

instance instDecidableFrameValid : (fr : Frame) → Decidable fr.valid
  | .data _ => inferInstanceAs (Decidable (_ ∧ _))
  | .control c => instDecidableControlValid c

/-- `BaseReader::new` (`src/reader.rs`): accept a `START` body if it is
empty, or if it carries one content type that is allowed (the local list is
empty, meaning accept any, or contains it).  Returns the negotiated content
type, or `none` on rejection. -/
def baseReaderNew (L : List Bytes) (start : Data) : Option (Option Bytes) :=
  match start with
  | .empty => some none
  | .field (.contentType ct) =>
      if L.length = 0 ∨ ct ∈ L then some (some ct) else none
  | .fields _ => none

/-- The two session shapes `bi_directional::Build::build` can return,
carrying the negotiated content type. -/
inductive Session where
  | uniDirectional (contentType : Option Bytes)
  | biDirectional (contentType : Option Bytes)
  deriving DecidableEq, Repr

/-- `bi_directional::Build::build` (`src/reader.rs`), over a state
`(input bytes, output bytes)`: read a frame; a `START` yields a
uni-directional session; a `READY` makes it write an `ACCEPT` carrying the
offered fields filtered by membership of their content type in the local
list `L`, then read a frame again, which must be an acceptable `START`;
anything else is `TodoError`. -/
def biBuild (L : List Bytes) (inp out : Bytes) :
    Except Error Session × Bytes × Bytes :=
  match readFrame inp with
  | (.error e, inp) => (.error e, inp, out)
  | (.ok (.control (.start st)), inp) =>
      match baseReaderNew L st with
      | some ct => (.ok (.uniDirectional ct), inp, out)
      | none => (.error .todoError, inp, out)
  | (.ok (.control (.ready d)), inp) =>
      match Frame.encode (.control (.accept
          (d.filter fun f => decide (f.refBody ∈ L)))) with
      | .error e => (.error e, inp, out)
      | .ok bytes =>
          match readFrame inp with
          | (.error e, inp) => (.error e, inp, out ++ bytes)
          | (.ok (.control (.start st)), inp) =>
              match baseReaderNew L st with
              | some ct => (.ok (.biDirectional ct), inp, out ++ bytes)
              | none => (.error .todoError, inp, out ++ bytes)
          | (.ok _, inp) => (.error .todoError, inp, out ++ bytes)
  | (.ok _, inp) => (.error .todoError, inp, out)

/-- `impl Iterator for BaseReader` (`src/reader.rs`), the `Started`-phase
read loop: a data frame yields its payload, `STOP` ends the iteration
(`None`), any other control frame yields `Some(Err(TodoError))`, and a read
error is passed through. -/
def readerNext (s : Bytes) : Option (Except Error Bytes) × Bytes :=
  match readFrame s with
  | (.ok (.data payload), s) => (some (.ok payload), s)
  | (.ok (.control .stop), s) => (none, s)
  | (.ok _, s) => (some (.error .todoError), s)
  | (.error e, s) => (some (.error e), s)

theorem decodeFieldsAux_fuel (fuel1 : Nat) :
    ∀ (fuel2 len : Nat) (s : Bytes) (acc : List Field), len < fuel1 → len < fuel2 →
      decodeFieldsAux fuel1 len s acc = decodeFieldsAux fuel2 len s acc := by
  induction fuel1 with
  | zero => intro fuel2 len s acc h1 h2; omega
  | succ n ih =>
    intro fuel2 len s acc h1 h2
    match fuel2, h2 with
    | m + 1, h2 =>
      simp only [decodeFieldsAux]
      split
      · rfl
      split
      · rfl
      split
      · rfl
      split
      · rfl
      rename Field => f
      apply ih
      · have hsz : f.size = 8 + f.bodySize := rfl
        omega
      · have hsz : f.size = 8 + f.bodySize := rfl
        omega

theorem decodeFields_eq (len : Nat) (s : Bytes) (acc : List Field) :
    decodeFields len s acc =
      (if len = 0 then (.ok acc, s)
       else if len < discriminantSize then (.error .frameFormatError, consume len s)
       else
         match Field.decode s with
         | (.error e, s) => (.error e, s)
         | (.ok f, s) =>
           if f.size > len then (.error .todoError, s)
           else decodeFields (len - f.size) s (acc ++ [f])) := by
  unfold decodeFields
  conv_lhs => simp only [decodeFieldsAux]
  split
  · rfl
  split
  · rfl
  split
  · rfl
  split
  · rfl
  rename Field => f
  apply decodeFieldsAux_fuel
  · have hsz : f.size = 8 + f.bodySize := rfl
    omega
  · omega

theorem readFrameValue_write (v : Nat) (rest : Bytes) (h : v < 4294967296) :
    readFrameValue (writeFrameValue v ++ rest) = (.ok v, rest) := by
  simp only [writeFrameValue, List.cons_append, List.nil_append, readFrameValue,
    Prod.mk.injEq, Except.ok.injEq, and_true]
  omega

theorem readFrameDataForLen_append (b rest : Bytes) :
    readFrameDataForLen b.length (b ++ rest) = (.ok b, rest) := by
  simp [readFrameDataForLen]

theorem field_decode_encode (f : Field) (hf : f.valid) (rest : Bytes) :
    Field.decode (f.encode ++ rest) = (.ok f, rest) := by
  obtain ⟨ct⟩ := f
  have hl : ct.length ≤ 256 := hf
  simp only [Field.encode, Field.discriminant, Field.bodySize, Field.refBody,
    List.append_assoc]
  rw [Field.decode, readFrameValue_write _ _ (by decide)]
  simp only []
  rw [if_pos trivial, readFrameValue_write _ _ (by omega)]
  simp only []
  rw [if_neg (show ¬ ct.length > FIELD_CONTENT_TYPE_LENGTH_MAX by
        simp only [FIELD_CONTENT_TYPE_LENGTH_MAX]; omega),
    readFrameDataForLen_append]

theorem fieldsOfData_dataOfFields (fs : List Field) :
    fieldsOfData (dataOfFields fs) = fs := by
  match fs with
  | [] => rfl
  | [f] => rfl
  | a :: b :: t => rfl

theorem Data.canonical_dataOfFields (fs : List Field) :
    (dataOfFields fs).canonical := by
  unfold Data.canonical
  rw [fieldsOfData_dataOfFields]

theorem Data.size_eq_sum (d : Data) :
    d.size = ((fieldsOfData d).map Field.size).sum := by
  cases d <;> simp [Data.size, fieldsOfData]

theorem Data.encode_eq_flatten (d : Data) :
    d.encode = ((fieldsOfData d).map Field.encode).flatten := by
  cases d <;> simp [Data.encode, fieldsOfData]

theorem decodeFields_encode (fs : List Field) (h : ∀ f ∈ fs, f.valid)
    (acc : List Field) (rest : Bytes) :
    decodeFields ((fs.map Field.size).sum)
      ((fs.map Field.encode).flatten ++ rest) acc = (.ok (acc ++ fs), rest) := by
  induction fs generalizing acc with
  | nil => simp [decodeFields, decodeFieldsAux]
  | cons f t ih =>
    have hf := h f (List.mem_cons_self ..)
    have ht : ∀ g ∈ t, g.valid := fun g hg => h g (List.mem_cons_of_mem _ hg)
    have hfs : f.size = 8 + f.bodySize := rfl
    rw [List.map_cons, List.map_cons, List.sum_cons, List.flatten_cons,
      List.append_assoc]
    rw [decodeFields_eq]
    rw [if_neg (by omega), if_neg (by simp only [discriminantSize]; omega)]
    rw [field_decode_encode f hf]
    simp only []
    rw [if_neg (by omega)]
    have harith : f.size + (t.map Field.size).sum - f.size = (t.map Field.size).sum := by
      omega
    rw [harith, ih ht]
    simp

theorem control_decode_encode (c : Control) (hc : c.valid) (rest : Bytes) :
    Control.decode (c.encode ++ rest) = (.ok c, rest) := by
  cases c with
  | stop =>
    have he : Control.encode .stop ++ rest =
        writeFrameValue 4 ++ (writeFrameValue 3 ++ rest) := by
      simp [Control.encode, Control.bodySize, Control.discriminant,
        discriminantSize, FSTRM_CONTROL_STOP]
    rw [he, Control.decode, readFrameValue_write _ _ (by decide)]
    simp only []
    rw [if_neg (by decide), readFrameValue_write _ _ (by decide)]
    simp only []
    rw [if_neg (by decide), if_pos (by decide)]
  | finish =>
    have he : Control.encode .finish ++ rest =
        writeFrameValue 4 ++ (writeFrameValue 5 ++ rest) := by
      simp [Control.encode, Control.bodySize, Control.discriminant,
        discriminantSize, FSTRM_CONTROL_FINISH]
    rw [he, Control.decode, readFrameValue_write _ _ (by decide)]
    simp only []
    rw [if_neg (by decide), readFrameValue_write _ _ (by decide)]
    simp only []
    rw [if_pos (by decide)]
  | start d =>
    obtain ⟨hsize, hd⟩ := hc
    rcases hd with rfl | ⟨f, rfl, hf⟩
    · have he : Control.encode (.start .empty) ++ rest =
          writeFrameValue 4 ++ (writeFrameValue 2 ++ rest) := by
        simp [Control.encode, Control.bodySize, Control.discriminant,
          discriminantSize, FSTRM_CONTROL_START, Data.size, Data.encode]
      rw [he, Control.decode, readFrameValue_write _ _ (by decide)]
      simp only []
      rw [if_neg (by decide), readFrameValue_write _ _ (by decide)]
      simp only []
      rw [if_neg (by decide), if_neg (by decide), if_pos (by decide),
        if_pos (by decide)]
    · have hfs : f.size = 8 + f.bodySize := rfl
      have hsz : Data.size (.field f) = f.size := rfl
      rw [hsz] at hsize
      have he : Control.encode (.start (.field f)) ++ rest =
          writeFrameValue (discriminantSize + f.size) ++
            (writeFrameValue 2 ++ (f.encode ++ rest)) := by
        simp [Control.encode, Control.bodySize, Control.discriminant,
          FSTRM_CONTROL_START, Data.size, Data.encode]
      rw [he, Control.decode,
        readFrameValue_write _ _ (by simp only [FRAME_LENGTH_MAX, discriminantSize] at *; omega)]
      simp only []
      rw [if_neg (by simp only [FRAME_LENGTH_MAX, discriminantSize] at *; omega),
        readFrameValue_write _ _ (by decide)]
      simp only []
      rw [if_neg (by simp [FSTRM_CONTROL_FINISH]),
        if_neg (by simp [FSTRM_CONTROL_STOP]),
        if_pos (show (2 : Nat) = FSTRM_CONTROL_START by decide)]
      have hlen : discriminantSize + f.size - discriminantSize = f.size := by omega
      rw [hlen]
      rw [if_neg (by omega), if_neg (by simp only [discriminantSize]; omega)]
      rw [field_decode_encode f hf]
      simp only []
      rw [if_neg (lt_irrefl _), if_pos (le_refl _)]
  | accept d =>
    obtain ⟨hsize, hcan, hfv⟩ := hc
    have he : Control.encode (.accept d) ++ rest =
        writeFrameValue (discriminantSize + d.size) ++
          (writeFrameValue 1 ++ (d.encode ++ rest)) := by
      simp [Control.encode, Control.bodySize, Control.discriminant,
        FSTRM_CONTROL_ACCEPT]
    rw [he, Control.decode,
      readFrameValue_write _ _ (by simp only [FRAME_LENGTH_MAX, discriminantSize] at *; omega)]
    simp only []
    rw [if_neg (by simp only [FRAME_LENGTH_MAX, discriminantSize] at *; omega),
      readFrameValue_write _ _ (by decide)]
    simp only []
    rw [if_neg (by simp [FSTRM_CONTROL_FINISH]),
      if_neg (by simp [FSTRM_CONTROL_STOP]),
      if_neg (by simp [FSTRM_CONTROL_START]),
      if_pos (Or.inl (show (1 : Nat) = FSTRM_CONTROL_ACCEPT by decide))]
    have hlen : discriminantSize + d.size - discriminantSize = d.size := by omega
    rw [hlen, Data.encode_eq_flatten, Data.size_eq_sum,
      decodeFields_encode _ hfv [] rest]
    simp only [List.nil_append]
    rw [if_pos (show (1 : Nat) = FSTRM_CONTROL_ACCEPT by decide), hcan]
  | ready d =>
    obtain ⟨hsize, hcan, hfv⟩ := hc
    have he : Control.encode (.ready d) ++ rest =
        writeFrameValue (discriminantSize + d.size) ++
          (writeFrameValue 4 ++ (d.encode ++ rest)) := by
      simp [Control.encode, Control.bodySize, Control.discriminant,
        FSTRM_CONTROL_READY]
    rw [he, Control.decode,
      readFrameValue_write _ _ (by simp only [FRAME_LENGTH_MAX, discriminantSize] at *; omega)]
    simp only []
    rw [if_neg (by simp only [FRAME_LENGTH_MAX, discriminantSize] at *; omega),
      readFrameValue_write _ _ (by decide)]
    simp only []
    rw [if_neg (by simp [FSTRM_CONTROL_FINISH]),
      if_neg (by simp [FSTRM_CONTROL_STOP]),
      if_neg (by simp [FSTRM_CONTROL_START]),
      if_pos (Or.inr (show (4 : Nat) = FSTRM_CONTROL_READY by decide))]
    have hlen : discriminantSize + d.size - discriminantSize = d.size := by omega
    rw [hlen, Data.encode_eq_flatten, Data.size_eq_sum,
      decodeFields_encode _ hfv [] rest]
    simp only [List.nil_append]
    rw [if_neg (by simp [FSTRM_CONTROL_ACCEPT]), hcan]

theorem readFrame_encode (fr : Frame) (hv : fr.valid) (b rest : Bytes)
    (he : Frame.encode fr = .ok b) :
    readFrame (b ++ rest) = (.ok fr, rest) := by
  cases fr with
  | data p =>
    obtain ⟨hpos, hlt⟩ := hv
    have hb : b = writeFrameValue p.length ++ p := by
      simp only [Frame.encode, Except.ok.injEq] at he
      exact he.symm
    subst hb
    rw [List.append_assoc, readFrame, readFrameValue_write _ _ hlt]
    simp only []
    rw [if_pos (by omega), readFrameDataForLen_append]
  | control c =>
    have hb : b = writeFrameValue 0 ++ Control.encode c := by
      simp only [Frame.encode, Except.ok.injEq] at he
      exact he.symm
    subst hb
    rw [List.append_assoc, readFrame, readFrameValue_write _ _ (by decide)]
    simp only []
    rw [if_neg (by simp), control_decode_encode c hv]

theorem readFrameValue_ok {s : Bytes} {v : Nat} {s' : Bytes}
    (h : readFrameValue s = (.ok v, s')) :
    s' = s.drop 4 ∧ 4 + s'.length = s.length := by
  match s with
  | b0 :: b1 :: b2 :: b3 :: rest =>
    simp only [readFrameValue, Prod.mk.injEq, Except.ok.injEq] at h
    obtain ⟨-, rfl⟩ := h
    simp
    omega
  | [] => simp [readFrameValue] at h
  | [_] => simp [readFrameValue] at h
  | [_, _] => simp [readFrameValue] at h
  | [_, _, _] => simp [readFrameValue] at h

theorem readFrameDataForLen_ok {len : Nat} {s : Bytes} {b s' : Bytes}
    (h : readFrameDataForLen len s = (.ok b, s')) :
    s' = s.drop len ∧ b.length = len ∧ len ≤ s.length := by
  rw [readFrameDataForLen] at h
  split at h
  · simp only [Prod.mk.injEq, Except.ok.injEq] at h
    obtain ⟨rfl, rfl⟩ := h
    refine ⟨rfl, ?_, by assumption⟩
    simp
    omega
  · simp at h

theorem Field.decode_ok {s : Bytes} {f : Field} {s' : Bytes}
    (h : Field.decode s = (.ok f, s')) :
    s' = s.drop f.size ∧ f.size ≤ s.length := by
  rw [Field.decode] at h
  rcases h1 : readFrameValue s with ⟨r1, s1⟩
  rw [h1] at h
  cases r1 with
  | error e => simp at h
  | ok tag =>
    simp only [] at h
    split at h
    · rcases h2 : readFrameValue s1 with ⟨r2, s2⟩
      rw [h2] at h
      cases r2 with
      | error e => simp at h
      | ok len =>
        simp only [] at h
        split at h
        · simp at h
        · rcases h3 : readFrameDataForLen len s2 with ⟨r3, s3⟩
          rw [h3] at h
          cases r3 with
          | error e => simp at h
          | ok body =>
            simp only [Prod.mk.injEq, Except.ok.injEq] at h
            obtain ⟨rfl, rfl⟩ := h
            obtain ⟨hd1, hl1⟩ := readFrameValue_ok h1
            obtain ⟨hd2, hl2⟩ := readFrameValue_ok h2
            obtain ⟨hd3, hl3, hle⟩ := readFrameDataForLen_ok h3
            have hsz : Field.size (.contentType body) = 8 + body.length := rfl
            subst hd1 hd2 hd3
            constructor
            · rw [List.drop_drop, List.drop_drop, hsz, hl3]
              ring_nf
            · rw [hsz]
              simp [List.length_drop] at hle hl1 hl2 ⊢
              omega
    · simp at h

theorem decodeFields_ok (len : Nat) :
    ∀ (s : Bytes) (acc fs : List Field) (s' : Bytes),
      decodeFields len s acc = (.ok fs, s') →
      s' = s.drop len ∧ ∃ new, fs = acc ++ new ∧ (new.map Field.size).sum = len := by
  induction len using Nat.strong_induction_on with
  | _ len ih =>
    intro s acc fs s' h
    rw [decodeFields_eq] at h
    by_cases h0 : len = 0
    · rw [if_pos h0] at h
      simp only [Prod.mk.injEq, Except.ok.injEq] at h
      obtain ⟨rfl, rfl⟩ := h
      subst h0
      exact ⟨by simp, [], by simp, by simp⟩
    · rw [if_neg h0] at h
      by_cases h4 : len < discriminantSize
      · rw [if_pos h4] at h
        simp at h
      · rw [if_neg h4] at h
        rcases hdec : Field.decode s with ⟨r, s1⟩
        rw [hdec] at h
        cases r with
        | error e => simp at h
        | ok f =>
          simp only [] at h
          by_cases hgt : f.size > len
          · rw [if_pos hgt] at h
            simp at h
          · rw [if_neg hgt] at h
            have hsz : f.size = 8 + f.bodySize := rfl
            obtain ⟨hs', new, hfs, hsum⟩ :=
              ih (len - f.size) (by omega) s1 (acc ++ [f]) fs s' h
            obtain ⟨hd, hlen⟩ := Field.decode_ok hdec
            subst hd
            refine ⟨?_, f :: new, by simpa using hfs, ?_⟩
            · rw [hs', List.drop_drop]
              congr 1
              omega
            · simp only [List.map_cons, List.sum_cons]
              omega


/-- C10: whenever `Control::decode` returns successfully after reading a
declared body length `L`, the reader has advanced by exactly the 4-byte
length word plus `L` body bytes (given enough input, the stream shrinks by
exactly `4 + L`); for `STOP` and `FINISH` the body beyond the 4-byte type is
empty (`L = 4`); for `ACCEPT` and `READY` the decoded field sizes sum to
`L - 4`; for `START` the decoded field fits within `L - 4`, any surplus
being consumed before returning. -/
theorem c10_decode_consumes_declared_length (s : Bytes) (c : Control) (rest : Bytes)
    (h : Control.decode s = (.ok c, rest)) :
    ∃ L, readFrameValue s = (.ok L, s.drop 4) ∧
      discriminantSize ≤ L ∧ L ≤ FRAME_LENGTH_MAX ∧
      rest = s.drop (4 + L) ∧
      (4 + L ≤ s.length → 4 + L + rest.length = s.length) ∧
      ((c = .stop ∨ c = .finish) → L = discriminantSize) ∧
      (∀ d, (c = .accept d ∨ c = .ready d) → discriminantSize + d.size = L) ∧
      (∀ d, c = .start d → discriminantSize + d.size ≤ L) := by
  rw [Control.decode] at h
  rcases h1 : readFrameValue s with ⟨r1, s1⟩
  rw [h1] at h
  cases r1 with
  | error e => simp at h
  | ok L =>
    simp only [] at h
    split at h
    · simp at h
    · rename_i hbound
      push_neg at hbound
      obtain ⟨hbound1, hbound2⟩ := hbound
      obtain ⟨hd1, hl1⟩ := readFrameValue_ok h1
      rcases h2 : readFrameValue s1 with ⟨r2, s2⟩
      rw [h2] at h
      cases r2 with
      | error e => simp at h
      | ok dv =>
        simp only [] at h
        obtain ⟨hd2, hl2⟩ := readFrameValue_ok h2
        have hds : discriminantSize = 4 := rfl
        have hrest_of : ∀ r : Bytes, r = s2.drop (L - 4) → r = s.drop (4 + L) := by
          intro r hr
          rw [hr, hd2, hd1, List.drop_drop, List.drop_drop]
          congr 1
          omega
        have hlen_of : ∀ r : Bytes, r = s.drop (4 + L) →
            (4 + L ≤ s.length → 4 + L + r.length = s.length) := by
          intro r hr hle
          rw [hr, List.length_drop]
          omega
        by_cases hfin : dv = FSTRM_CONTROL_FINISH ∧ L - discriminantSize = 0
        · rw [if_pos hfin] at h
          simp only [Prod.mk.injEq, Except.ok.injEq] at h
          obtain ⟨hc, hr⟩ := h
          subst hc hr
          have hrest : s2 = s.drop (4 + L) := by
            apply hrest_of
            have hz : L - 4 = 0 := by omega
            rw [hz, List.drop_zero]
          refine ⟨L, by rw [hd1], hbound2, hbound1, hrest, hlen_of _ hrest, ?_, ?_, ?_⟩
          · intro _
            omega
          · intro d hd
            rcases hd with h' | h' <;> exact Control.noConfusion h'
          · intro d h'
            exact Control.noConfusion h'
        · rw [if_neg hfin] at h
          by_cases hstop : dv = FSTRM_CONTROL_STOP ∧ L - discriminantSize = 0
          · rw [if_pos hstop] at h
            simp only [Prod.mk.injEq, Except.ok.injEq] at h
            obtain ⟨hc, hr⟩ := h
            subst hc hr
            have hrest : s2 = s.drop (4 + L) := by
              apply hrest_of
              have hz : L - 4 = 0 := by omega
              rw [hz, List.drop_zero]
            refine ⟨L, by rw [hd1], hbound2, hbound1, hrest, hlen_of _ hrest, ?_, ?_, ?_⟩
            · intro _
              omega
            · intro d hd
              rcases hd with h' | h' <;> exact Control.noConfusion h'
            · intro d h'
              exact Control.noConfusion h'
          · rw [if_neg hstop] at h
            by_cases hst : dv = FSTRM_CONTROL_START
            · rw [if_pos hst] at h
              by_cases hz : L - discriminantSize = 0
              · rw [if_pos hz] at h
                simp only [Prod.mk.injEq, Except.ok.injEq] at h
                obtain ⟨hc, hr⟩ := h
                subst hc hr
                have hrest : s2 = s.drop (4 + L) := by
                  apply hrest_of
                  have hz4 : L - 4 = 0 := by omega
                  rw [hz4, List.drop_zero]
                refine ⟨L, by rw [hd1], hbound2, hbound1, hrest, hlen_of _ hrest, ?_, ?_, ?_⟩
                · intro hd
                  rcases hd with h' | h' <;> exact Control.noConfusion h'
                · intro d hd
                  rcases hd with h' | h' <;> exact Control.noConfusion h'
                · intro d h'
                  have hde : Data.empty = d := by
                    injection h'
                  subst hde
                  simp only [Data.size]
                  omega
              · rw [if_neg hz] at h
                by_cases hz4 : L - discriminantSize < discriminantSize
                · rw [if_pos hz4] at h
                  simp at h
                · rw [if_neg hz4] at h
                  rcases hdec : Field.decode s2 with ⟨r3, s3⟩
                  rw [hdec] at h
                  cases r3 with
                  | error e => simp at h
                  | ok f =>
                    simp only [] at h
                    obtain ⟨hd3, hlen3⟩ := Field.decode_ok hdec
                    by_cases hle : f.size ≤ L - discriminantSize
                    · rw [if_pos hle] at h
                      simp only [Prod.mk.injEq, Except.ok.injEq] at h
                      obtain ⟨hc, hr⟩ := h
                      subst hc hr
                      have hrest : (if f.size < L - discriminantSize then
                          consume (L - discriminantSize - f.size) s3 else s3) =
                          s.drop (4 + L) := by
                        apply hrest_of
                        by_cases hlt : f.size < L - discriminantSize
                        · rw [if_pos hlt, consume, hd3, List.drop_drop]
                          congr 1
                          omega
                        · rw [if_neg hlt, hd3]
                          congr 1
                          omega
                      refine ⟨L, by rw [hd1], hbound2, hbound1, hrest, hlen_of _ hrest, ?_, ?_, ?_⟩
                      · intro hd
                        rcases hd with h' | h' <;> exact Control.noConfusion h'
                      · intro d hd
                        rcases hd with h' | h' <;> exact Control.noConfusion h'
                      · intro d h'
                        have hdf : Data.field f = d := by
                          injection h'
                        subst hdf
                        have hsz : Data.size (.field f) = f.size := rfl
                        rw [hsz]
                        omega
                    · rw [if_neg hle] at h
                      simp at h
            · rw [if_neg hst] at h
              by_cases hacc : dv = FSTRM_CONTROL_ACCEPT ∨ dv = FSTRM_CONTROL_READY
              · rw [if_pos hacc] at h
                rcases hdf : decodeFields (L - discriminantSize) s2 [] with ⟨r3, s3⟩
                rw [hdf] at h
                cases r3 with
                | error e => simp at h
                | ok fs =>
                  simp only [Prod.mk.injEq, Except.ok.injEq] at h
                  obtain ⟨hc, hr⟩ := h
                  subst hr
                  obtain ⟨hs3, new, hnew, hsum⟩ := decodeFields_ok _ _ _ _ _ hdf
                  simp only [List.nil_append] at hnew
                  subst hnew
                  have hrest : s3 = s.drop (4 + L) := by
                    apply hrest_of
                    rw [hs3, hds]
                  have hsz : (dataOfFields fs).size = (fs.map Field.size).sum := by
                    rw [Data.size_eq_sum, fieldsOfData_dataOfFields]
                  by_cases hdv1 : dv = FSTRM_CONTROL_ACCEPT
                  · rw [if_pos hdv1] at hc
                    subst hc
                    refine ⟨L, by rw [hd1], hbound2, hbound1, hrest, hlen_of _ hrest, ?_, ?_, ?_⟩
                    · intro hd
                      rcases hd with h' | h' <;> exact Control.noConfusion h'
                    · intro d hd
                      rcases hd with h' | h'
                      · have hde : dataOfFields fs = d := by
                          injection h'
                        subst hde
                        rw [hsz]
                        omega
                      · exact Control.noConfusion h'
                    · intro d h'
                      exact Control.noConfusion h'
                  · rw [if_neg hdv1] at hc
                    subst hc
                    refine ⟨L, by rw [hd1], hbound2, hbound1, hrest, hlen_of _ hrest, ?_, ?_, ?_⟩
                    · intro hd
                      rcases hd with h' | h' <;> exact Control.noConfusion h'
                    · intro d hd
                      rcases hd with h' | h'
                      · exact Control.noConfusion h'
                      · have hde : dataOfFields fs = d := by
                          injection h'
                        subst hde
                        rw [hsz]
                        omega
                    · intro d h'
                      exact Control.noConfusion h'
              · rw [if_neg hacc] at h
                simp at h

theorem field_encode_length (f : Field) : f.encode.length = f.size := by
  cases f with
  | contentType ct =>
    simp [Field.encode, Field.size, Field.refBody, Field.bodySize,
      Field.discriminant, writeFrameValue, discriminantSize, FSTRM_LENGTH_SIZE]
    omega

theorem flatten_encode_length (l : List Field) :
    ((l.map Field.encode).flatten).length = (l.map Field.size).sum := by
  induction l with
  | nil => simp
  | cons f t ih => simp [ih, field_encode_length]

theorem data_encode_length (d : Data) : d.encode.length = d.size := by
  rw [Data.encode_eq_flatten, Data.size_eq_sum]
  exact flatten_encode_length _

theorem control_encode_length (c : Control) : (Control.encode c).length = c.size := by
  cases c <;>
    simp [Control.encode, Control.size, Control.bodySize, writeFrameValue,
      data_encode_length, FSTRM_LENGTH_SIZE, discriminantSize] <;>
    omega

theorem Data.filter_dataOfFields (fs : List Field) (p : Field → Bool) :
    (dataOfFields fs).filter p = dataOfFields (fs.filter p) := by
  match fs with
  | [] => rfl
  | [f] =>
    by_cases h : p f = true <;> simp [dataOfFields, Data.filter, List.filter, h]
  | a :: b :: t => rfl

/-- C1: for every `Frame f` — a data frame with a non-empty payload that
fits in a `u32`, or a control frame whose fields satisfy the stated size
invariants (body within the 512-byte cap, each `CONTENT_TYPE` body within
the 256-byte cap, `START` carrying at most one field, the field container
in the image of the crate's `Vec<Field> -> Data` conversion) — decoding the
byte sequence produced by encoding `f` yields `f` again with the input
fully consumed: `decode(encode(f)) == f`. -/
theorem c1_decode_encode_roundtrip (fr : Frame) (b : Bytes)
    (hv : fr.valid) (he : Frame.encode fr = .ok b) :
    readFrame b = (.ok fr, []) := by
  have h := readFrame_encode fr hv b [] he
  simpa using h

/-- Round trip evaluated at a concrete `START` frame carrying a one-byte
content type. -/
theorem c1_decode_encode_roundtrip_witness :
    Frame.valid (.control (.start (.field (.contentType [97])))) ∧
    Frame.encode (.control (.start (.field (.contentType [97])))) =
      .ok [0,0,0,0, 0,0,0,13, 0,0,0,2, 0,0,0,1, 0,0,0,1, 97] ∧
    readFrame [0,0,0,0, 0,0,0,13, 0,0,0,2, 0,0,0,1, 0,0,0,1, 97] =
      (.ok (.control (.start (.field (.contentType [97])))), []) :=
  ⟨by decide, by decide,
   c1_decode_encode_roundtrip _ _ (by decide) (by decide)⟩

/-- C2 counterexample: local list `L = {B}` (byte 66) and a `READY` frame
offering only `P = {A}` (byte 65), so the negotiated set `L ∩ P` is empty
and the claim demands failure with a content-type mismatch.  The code
instead writes the empty `ACCEPT` frame `00000000 00000004 00000001` and
completes the handshake successfully from the following `START[ct=B]`. -/
theorem c2_mismatch_counterexample :
    biBuild [[66]]
      ([0,0,0,0, 0,0,0,13, 0,0,0,4, 0,0,0,1, 0,0,0,1, 65] ++
       [0,0,0,0, 0,0,0,13, 0,0,0,2, 0,0,0,1, 0,0,0,1, 66]) [] =
      (.ok (.biDirectional (some [66])), [], [0,0,0,0, 0,0,0,4, 0,0,0,1]) := by
  decide

/-- C2 amended: on a `READY` offering fields `fs`, `bi_directional`
`Build::build` always writes `ACCEPT` carrying exactly the offered fields
whose content type is a member of the local list `L` (so the empty set when
`L` is empty, never `P` itself), performs no emptiness check on that set and
never fails with the content-type error; the handshake then succeeds if and
only if the next frame is a `START` accepted by `BaseReader::new` (empty
body, or one content type with `L` empty or containing it). -/
theorem c2_amended_handshake (L : List Bytes) (fs : List Field) (st : Data)
    (rest out : Bytes)
    (hready : Control.valid (.ready (dataOfFields fs)))
    (hstart : Control.valid (.start st)) :
    biBuild L ((writeFrameValue 0 ++ Control.encode (.ready (dataOfFields fs))) ++
        ((writeFrameValue 0 ++ Control.encode (.start st)) ++ rest)) out =
      ((match baseReaderNew L st with
        | some ct => .ok (.biDirectional ct)
        | none => .error .todoError),
       rest,
       out ++ (writeFrameValue 0 ++ Control.encode (.accept
         (dataOfFields (fs.filter fun f => decide (f.refBody ∈ L)))))) := by
  rw [biBuild]
  rw [readFrame_encode (.control (.ready (dataOfFields fs))) hready _ _ rfl]
  simp only [Frame.encode]
  rw [readFrame_encode (.control (.start st)) hstart _ _ rfl]
  simp only [Data.filter_dataOfFields]
  rcases hb : baseReaderNew L st with _ | ct <;> simp [hb]

/-- The amended handshake law evaluated at `L = {B, C}`, `READY[A, B]`,
`START[B]`: the written `ACCEPT` carries exactly `{B}`. -/
theorem c2_amended_handshake_witness :
    Control.valid (.ready (dataOfFields
      [.contentType [65], .contentType [66]])) ∧
    Control.valid (.start (.field (.contentType [66]))) ∧
    biBuild [[66], [67]]
      ((writeFrameValue 0 ++ Control.encode (.ready (dataOfFields
          [.contentType [65], .contentType [66]]))) ++
        ((writeFrameValue 0 ++ Control.encode
            (.start (.field (.contentType [66])))) ++ [9])) [8] =
      ((match baseReaderNew [[66], [67]] (.field (.contentType [66])) with
        | some ct => .ok (.biDirectional ct)
        | none => .error .todoError),
       [9],
       [8] ++ (writeFrameValue 0 ++ Control.encode (.accept
         (dataOfFields (([.contentType [65], .contentType [66]] : List Field).filter
           fun f => decide (f.refBody ∈ ([[66], [67]] : List Bytes))))))) :=
  ⟨by decide, by decide,
   c2_amended_handshake [[66], [67]] [.contentType [65], .contentType [66]]
     (.field (.contentType [66])) [9] [8] (by decide) (by decide)⟩

/-- C3 counterexample: a `READY` body declaring 8 bytes of field data whose
field tag is 2 (not `CONTENT_TYPE`).  The claim demands an `UNKNOWN(2)`
field, consumption of the declared field body, and continued decoding; the
code instead fails the whole frame with `FrameFormatError`, leaving the
8 declared body bytes after the tag unconsumed. -/
theorem c3_unknown_field_counterexample :
    Control.decode (writeFrameValue 12 ++ writeFrameValue FSTRM_CONTROL_READY ++
        writeFrameValue 2 ++ writeFrameValue 0 ++ [8, 8, 8, 8]) =
      (.error .frameFormatError, writeFrameValue 0 ++ [8, 8, 8, 8]) := by decide

/-- C3 amended: `Field::decode` rejects every tag other than `CONTENT_TYPE`
with `FrameFormatError` immediately after reading the tag (no `UNKNOWN`
field is produced and the declared field body is not skipped), and inside an
`ACCEPT` body this error aborts decoding with the remaining declared body
bytes unconsumed. -/
theorem c3_amended_unknown_field_rejected :
    (∀ (tag : Nat) (s : Bytes), tag < 4294967296 →
        tag ≠ FSTRM_CONTROL_FIELD_CONTENT_TYPE →
        Field.decode (writeFrameValue tag ++ s) = (.error .frameFormatError, s)) ∧
    Control.decode (writeFrameValue 12 ++ writeFrameValue FSTRM_CONTROL_ACCEPT ++
        writeFrameValue 3 ++ writeFrameValue 0 ++ [9, 9, 9, 9]) =
      (.error .frameFormatError, writeFrameValue 0 ++ [9, 9, 9, 9]) := by
  refine ⟨?_, by decide⟩
  intro tag s hlt hne
  rw [Field.decode, readFrameValue_write _ _ hlt]
  simp only []
  rw [if_neg hne]

/-- Unknown-tag rejection evaluated at tag 2. -/
theorem c3_amended_unknown_field_rejected_witness :
    (2 : Nat) < 4294967296 ∧ (2 : Nat) ≠ FSTRM_CONTROL_FIELD_CONTENT_TYPE ∧
    Field.decode (writeFrameValue 2 ++ [5, 6]) = (.error .frameFormatError, [5, 6]) :=
  ⟨by decide, by decide,
   c3_amended_unknown_field_rejected.1 2 [5, 6] (by decide) (by decide)⟩

/-- C4 evidence: in the `Started` phase the reader iterator maps a `FINISH`
control frame (`00000000 00000004 00000005`) to `Some(Err(TodoError))`,
an error item, while `STOP` (`00000000 00000004 00000003`) ends the
iteration cleanly with `None`.  The spec defines `FINISH` as equivalent to
`STOP` for the read side, which the code does not implement. -/
theorem c4_finish_read_behavior :
    readerNext [0,0,0,0, 0,0,0,4, 0,0,0,5] = (some (.error .todoError), []) ∧
    readerNext [0,0,0,0, 0,0,0,4, 0,0,0,3] = (none, []) := by decide

/-- C5 counterexample: an `ACCEPT` body declaring 16 bytes whose single
field (`CONTENT_TYPE`, declared field body 5) has encoded size
`4 + 4 + 5 = 13`, exceeding the 12 remaining declared body bytes.  The
claim demands `FrameFormatError` with the remaining declared body consumed;
the code returns `TodoError` and the reader has read one byte past the
declared body (the trailing byte 7 is all that remains). -/
theorem c5_oversized_field_counterexample :
    Control.decode (writeFrameValue 16 ++ writeFrameValue FSTRM_CONTROL_ACCEPT ++
        writeFrameValue FSTRM_CONTROL_FIELD_CONTENT_TYPE ++ writeFrameValue 5 ++
        [65, 66, 67, 68, 69, 7]) = (.error .todoError, [7]) := by decide

/-- C5 amended: a decoded field whose encoded size exceeds the remaining
declared body length makes `Control::decode` fail with `TodoError`, not
`FrameFormatError`, and without consuming the remaining declared body
(first conjunct, at a concrete `ACCEPT` body); the realignment behaviour —
consuming the remaining declared body bytes before surfacing
`FrameFormatError` — holds for the errors raised directly by
`Control::decode`: an unrecognised control type (second conjunct, general),
and fewer than 4 body bytes remaining before a field inside
`ACCEPT`/`READY` (third conjunct, concrete: declared body 14, one 9-byte
field, 1 remaining byte consumed before the error). -/
theorem c5_amended_error_realign :
    Control.decode (writeFrameValue 12 ++ writeFrameValue FSTRM_CONTROL_ACCEPT ++
        writeFrameValue FSTRM_CONTROL_FIELD_CONTENT_TYPE ++ writeFrameValue 1 ++
        [65, 7]) = (.error .todoError, [7]) ∧
    (∀ (len d : Nat) (s : Bytes), len < 4294967296 → discriminantSize ≤ len →
        len ≤ FRAME_LENGTH_MAX → d < 4294967296 →
        d ∉ ([FSTRM_CONTROL_ACCEPT, FSTRM_CONTROL_START, FSTRM_CONTROL_STOP,
              FSTRM_CONTROL_READY, FSTRM_CONTROL_FINISH] : List Nat) →
        Control.decode (writeFrameValue len ++ (writeFrameValue d ++ s)) =
          (.error .frameFormatError, consume (len - discriminantSize) s)) ∧
    Control.decode (writeFrameValue 14 ++ writeFrameValue FSTRM_CONTROL_ACCEPT ++
        writeFrameValue FSTRM_CONTROL_FIELD_CONTENT_TYPE ++ writeFrameValue 1 ++
        [65, 9, 7]) = (.error .frameFormatError, [7]) := by
  refine ⟨by decide, ?_, by decide⟩
  intro len d s hlen hge hle hdlt hnot
  simp only [List.mem_cons, List.not_mem_nil, or_false, not_or] at hnot
  obtain ⟨h1', h2', h3', h4', h5'⟩ := hnot
  rw [Control.decode, readFrameValue_write _ _ hlen]
  simp only []
  rw [if_neg (by
    rintro (hc | hc)
    · simp only [FRAME_LENGTH_MAX] at *
      omega
    · simp only [discriminantSize] at *
      omega)]
  rw [readFrameValue_write _ _ hdlt]
  simp only []
  rw [if_neg (fun hc => h5' hc.1), if_neg (fun hc => h3' hc.1), if_neg h2',
    if_neg (by rintro (hc | hc); exact h1' hc; exact h4' hc)]
  by_cases h0 : len - discriminantSize = 0
  · rw [if_neg (by omega), h0]
    simp [consume]
  · rw [if_pos (by omega)]

/-- The unknown-control-type realignment evaluated at declared length 4 and
type 7. -/
theorem c5_amended_error_realign_witness :
    (4 : Nat) < 4294967296 ∧ discriminantSize ≤ 4 ∧ (4 : Nat) ≤ FRAME_LENGTH_MAX ∧
    (7 : Nat) < 4294967296 ∧
    (7 : Nat) ∉ ([FSTRM_CONTROL_ACCEPT, FSTRM_CONTROL_START, FSTRM_CONTROL_STOP,
        FSTRM_CONTROL_READY, FSTRM_CONTROL_FINISH] : List Nat) ∧
    Control.decode (writeFrameValue 4 ++ (writeFrameValue 7 ++ [1])) =
      (.error .frameFormatError, consume (4 - discriminantSize) [1]) :=
  ⟨by decide, by decide, by decide, by decide, by decide,
   c5_amended_error_realign.2.1 4 7 [1] (by decide) (by decide) (by decide)
     (by decide) (by decide)⟩

/-- C6: a declared control-body length above `FRAME_LENGTH_MAX = 512` or
below 4 makes `Control::decode` fail with `FrameFormatError` after skipping
the declared body bytes (first conjunct, general); a declared length of
exactly 512 is accepted (second conjunct, a `START` body padded to 512
bytes decodes successfully), and 513 is rejected with `FrameFormatError`
(third conjunct). -/
theorem c6_control_body_length_bounds :
    (∀ (len : Nat) (s : Bytes), len < 4294967296 →
        (FRAME_LENGTH_MAX < len ∨ len < discriminantSize) →
        Control.decode (writeFrameValue len ++ s) =
          (.error .frameFormatError, consume len s)) ∧
    Control.decode (writeFrameValue 512 ++ writeFrameValue FSTRM_CONTROL_START ++
        Field.encode (.contentType []) ++ List.replicate 500 0) =
      (.ok (.start (.field (.contentType []))), []) ∧
    Control.decode (writeFrameValue 513) = (.error .frameFormatError, []) := by
  refine ⟨?_, by decide, by decide⟩
  intro len s hlt hbad
  rw [Control.decode, readFrameValue_write _ _ hlt]
  simp only []
  rw [if_pos hbad]

/-- The out-of-bounds law evaluated at declared length 513 with trailing
bytes, showing the skip. -/
theorem c6_control_body_length_bounds_witness :
    (513 : Nat) < 4294967296 ∧ (FRAME_LENGTH_MAX < 513 ∨ (513 : Nat) < discriminantSize) ∧
    Control.decode (writeFrameValue 513 ++ [7, 7, 7]) =
      (.error .frameFormatError, consume 513 [7, 7, 7]) :=
  ⟨by decide, by decide,
   c6_control_body_length_bounds.1 513 [7, 7, 7] (by decide) (by decide)⟩

/-- C7: a `CONTENT_TYPE` field with declared body length at most
`FIELD_CONTENT_TYPE_LENGTH_MAX = 256` decodes successfully, reading exactly
that many bytes as the content-type value (first conjunct); any declared
length above 256 yields `FrameFormatError` (second conjunct). -/
theorem c7_content_type_length_cap :
    (∀ (body rest : Bytes), body.length ≤ FIELD_CONTENT_TYPE_LENGTH_MAX →
      Field.decode (writeFrameValue FSTRM_CONTROL_FIELD_CONTENT_TYPE ++
          (writeFrameValue body.length ++ (body ++ rest))) =
        (.ok (.contentType body), rest)) ∧
    (∀ (len : Nat) (s : Bytes), FIELD_CONTENT_TYPE_LENGTH_MAX < len →
        len < 4294967296 →
      Field.decode (writeFrameValue FSTRM_CONTROL_FIELD_CONTENT_TYPE ++
          (writeFrameValue len ++ s)) =
        (.error .frameFormatError, s)) := by
  constructor
  · intro body rest hle
    have h := field_decode_encode (.contentType body) hle rest
    simpa [Field.encode, Field.discriminant, Field.bodySize, Field.refBody,
      List.append_assoc] using h
  · intro len s hgt hlt
    rw [Field.decode, readFrameValue_write _ _ (by decide)]
    simp only []
    rw [if_pos trivial, readFrameValue_write _ _ hlt]
    simp only []
    rw [if_pos hgt]

/-- The cap evaluated at the boundary: a 256-byte body is accepted, a
declared length of 257 is rejected. -/
theorem c7_content_type_length_cap_witness :
    (List.replicate 256 7).length ≤ FIELD_CONTENT_TYPE_LENGTH_MAX ∧
    Field.decode (writeFrameValue FSTRM_CONTROL_FIELD_CONTENT_TYPE ++
        (writeFrameValue (List.replicate 256 7).length ++
          (List.replicate 256 7 ++ [9]))) =
      (.ok (.contentType (List.replicate 256 7)), [9]) ∧
    FIELD_CONTENT_TYPE_LENGTH_MAX < 257 ∧
    Field.decode (writeFrameValue FSTRM_CONTROL_FIELD_CONTENT_TYPE ++
        (writeFrameValue 257 ++ [1, 2])) =
      (.error .frameFormatError, [1, 2]) :=
  ⟨by decide, c7_content_type_length_cap.1 (List.replicate 256 7) [9] (by decide),
   by decide, c7_content_type_length_cap.2 257 [1, 2] (by decide) (by decide)⟩

/-- C8: for every valid control frame `c`, `Control::encode` produces
exactly `Control::size c` bytes; the full on-wire frame (4-byte escape
header plus that encoding) is 4 bytes longer, and its length equals
`8 + 4 + sum over fields of (8 + field body length)` — that is, control
body `4 + sum (4 + 4 + body_len)` plus 4 bytes of escape and 4 bytes of
body length. -/
theorem c8_encoded_size_formula (c : Control) (b : Bytes)
    (hv : c.valid) (he : Frame.encode (.control c) = .ok b) :
    (Control.encode c).length = c.size ∧
    b.length = FSTRM_LENGTH_SIZE + c.size ∧
    b.length = 8 + 4 + (((fieldsOfData c.data).map fun f => 8 + f.bodySize).sum) := by
  have hb : b = writeFrameValue 0 ++ Control.encode c := by
    simp only [Frame.encode, Except.ok.injEq] at he
    exact he.symm
  subst hb
  have h1 : (Control.encode c).length = c.size := control_encode_length c
  refine ⟨h1, ?_, ?_⟩
  · simp only [List.length_append, writeFrameValue, List.length_cons,
      List.length_nil, h1, FSTRM_LENGTH_SIZE]
  · have hms : ((fieldsOfData c.data).map fun f => 8 + f.bodySize).sum =
        ((fieldsOfData c.data).map Field.size).sum := rfl
    have hdsz : (Control.data c).size = ((fieldsOfData c.data).map Field.size).sum :=
      Data.size_eq_sum _
    have hbody : c.size = 8 + (Control.data c).size := by
      cases c <;>
        simp [Control.size, Control.bodySize, Control.data, FSTRM_LENGTH_SIZE,
          discriminantSize, Data.size] <;>
        omega
    simp only [List.length_append, h1]
    simp only [writeFrameValue, List.length_cons, List.length_nil]
    omega

/-- The size formula evaluated at `READY` with a 1-byte and a 2-byte
content type: 31 = 12 + (8 + 1) + (8 + 2) bytes on the wire. -/
theorem c8_encoded_size_formula_witness :
    Control.valid (.ready (.fields [.contentType [65], .contentType [66, 67]])) ∧
    Frame.encode (.control (.ready
        (.fields [.contentType [65], .contentType [66, 67]]))) =
      .ok [0,0,0,0, 0,0,0,23, 0,0,0,4,
           0,0,0,1, 0,0,0,1, 65,
           0,0,0,1, 0,0,0,2, 66, 67] ∧
    ((Control.encode (.ready (.fields [.contentType [65], .contentType [66, 67]]))).length =
        (Control.ready (.fields [.contentType [65], .contentType [66, 67]])).size ∧
      (31 : Nat) = FSTRM_LENGTH_SIZE +
        (Control.ready (.fields [.contentType [65], .contentType [66, 67]])).size ∧
      (31 : Nat) = 8 + 4 + (((fieldsOfData (Control.ready
          (.fields [.contentType [65], .contentType [66, 67]])).data).map
            fun f => 8 + f.bodySize).sum)) := by
  refine ⟨by decide, by decide, ?_⟩
  have h := c8_encoded_size_formula
    (.ready (.fields [.contentType [65], .contentType [66, 67]]))
    [0,0,0,0, 0,0,0,23, 0,0,0,4, 0,0,0,1, 0,0,0,1, 65, 0,0,0,1, 0,0,0,2, 66, 67]
    (by decide) (by decide)
  simpa using h

/-- C9 evidence: encoding a zero-length data frame is not rejected — it
succeeds, and the bytes written are exactly the 4-byte zero word, identical
to the control-frame escape header; those bytes no longer decode as a data
frame (the decoder enters the control path and fails on the empty
remainder). -/
theorem c9_zero_length_data_encoding :
    Frame.encode (.data []) = .ok (writeFrameValue 0) ∧
    writeFrameValue 0 = [0, 0, 0, 0] ∧
    readFrame (writeFrameValue 0) = (.error .otherError, []) := by decide

/-- The consumption invariant evaluated at a `STOP` frame body. -/
theorem c10_decode_consumes_declared_length_witness :
    Control.decode [0,0,0,4, 0,0,0,3] = (.ok .stop, []) ∧
    (∃ L, readFrameValue [0,0,0,4, 0,0,0,3] =
        (.ok L, List.drop 4 [0,0,0,4, 0,0,0,3]) ∧
      discriminantSize ≤ L ∧ L ≤ FRAME_LENGTH_MAX ∧
      ([] : Bytes) = List.drop (4 + L) [0,0,0,4, 0,0,0,3] ∧
      (4 + L ≤ List.length ([0,0,0,4, 0,0,0,3] : Bytes) →
        4 + L + List.length ([] : Bytes) = List.length ([0,0,0,4, 0,0,0,3] : Bytes)) ∧
      ((Control.stop = .stop ∨ Control.stop = .finish) → L = discriminantSize) ∧
      (∀ d, (Control.stop = .accept d ∨ Control.stop = .ready d) →
        discriminantSize + d.size = L) ∧
      (∀ d, Control.stop = .start d → discriminantSize + d.size ≤ L)) :=
  ⟨by decide,
   c10_decode_consumes_declared_length [0,0,0,4, 0,0,0,3] .stop [] (by decide)⟩

end Fstrm
